import Mathlib

/-!
Verification development for the end-to-end encrypted direct-message
subsystem of the `mesh-cli` repository (`cmd/mesh/dm.go`).

Go byte strings are modelled as `List Nat` with every element `< 256`;
transport strings (base64 text) are modelled as `List Char`.  Fallible Go
functions returning `(T, error)` are modelled with `Except`/`Option`.
The local key file and the remote service's responses are passed
explicitly as state/environment values.
-/

namespace MeshDM

/-- Every element of the list is a byte value.  Go strings and `[]byte`
values always satisfy this. -/
def allBytes (bs : List Nat) : Prop := ∀ b ∈ bs, b < 256

instance (bs : List Nat) : Decidable (allBytes bs) := by
  unfold allBytes; infer_instance

/-! ## base64 (model of Go `encoding/base64` StdEncoding as used in dm.go)

`base64.StdEncoding.EncodeToString` / `DecodeString`: the standard
alphabet with `=` padding; the decoder skips `\r` and `\n`, consumes
four-character quanta, allows padding only in the final quantum, and
rejects any other malformed input. -/

/-- The standard base64 alphabet. -/
def b64Alphabet : List Char :=
  ['A','B','C','D','E','F','G','H','I','J','K','L','M','N','O','P',
   'Q','R','S','T','U','V','W','X','Y','Z',
   'a','b','c','d','e','f','g','h','i','j','k','l','m','n','o','p',
   'q','r','s','t','u','v','w','x','y','z',
   '0','1','2','3','4','5','6','7','8','9','+','/']

/-- The alphabet character for a 6-bit value. -/
def b64Char (n : Nat) : Char := b64Alphabet.getD (n % 64) 'A'

def b64IndexAux : List Char → Nat → Char → Option Nat
  | [], _, _ => none
  | a :: rest, i, c => if a = c then some i else b64IndexAux rest (i + 1) c

/-- The 6-bit value of an alphabet character (`none` for characters
outside the alphabet, including `=`). -/
def b64Index (c : Char) : Option Nat := b64IndexAux b64Alphabet 0 c

/-- Model of `EncodeToString`: three input bytes become four alphabet characters;
a final group of one or two bytes is padded with `=`. -/
def b64EncodeChars : List Nat → List Char
  | [] => []
  | [b1] => [b64Char (b1 / 4), b64Char (b1 % 4 * 16), '=', '=']
  | [b1, b2] => [b64Char (b1 / 4), b64Char (b1 % 4 * 16 + b2 / 16),
                 b64Char (b2 % 16 * 4), '=']
  | b1 :: b2 :: b3 :: rest =>
      b64Char (b1 / 4) :: b64Char (b1 % 4 * 16 + b2 / 16) ::
      b64Char (b2 % 16 * 4 + b3 / 64) :: b64Char (b3 % 64) ::
      b64EncodeChars rest

/-- Decode the input in four-character quanta (after `\r`/`\n` removal).
Padding is accepted only at the very end; any other malformed input
yields `none` (Go's corrupt-input error). -/
def b64DecodeGroups : List Char → Option (List Nat)
  | [] => some []
  | a :: b :: c :: d :: rest =>
    match b64Index a, b64Index b with
    | some x, some y =>
      if c = '=' then
        if d = '=' ∧ rest = [] then some [x * 4 + y / 16] else none
      else
        match b64Index c with
        | some z =>
          if d = '=' then
            if rest = [] then some [x * 4 + y / 16, y % 16 * 16 + z / 4] else none
          else
            match b64Index d with
            | some w =>
              match b64DecodeGroups rest with
              | some tail =>
                  some ((x * 4 + y / 16) :: (y % 16 * 16 + z / 4) ::
                        (z % 4 * 64 + w) :: tail)
              | none => none
            | none => none
        | none => none
    | _, _ => none
  | _ => none

/-- Model of `DecodeString`: Go's decoder ignores carriage returns and newlines,
then decodes quanta. -/
def b64Decode (s : List Char) : Option (List Nat) :=
  b64DecodeGroups (s.filter (fun c => c ≠ '\r' && c ≠ '\n'))

theorem b64IndexAux_getD :
    ∀ m < 64, b64IndexAux b64Alphabet 0 (b64Alphabet.getD m 'A') = some m := by
  decide

theorem b64Index_b64Char (n : Nat) : b64Index (b64Char n) = some (n % 64) := by
  have h : n % 64 < 64 := Nat.mod_lt _ (by norm_num)
  simpa [b64Index, b64Char] using b64IndexAux_getD (n % 64) h

theorem b64Char_ne_pad_aux : ∀ m < 64, b64Alphabet.getD m 'A' ≠ '=' := by
  decide

theorem b64Char_ne_pad (n : Nat) : b64Char n ≠ '=' :=
  b64Char_ne_pad_aux (n % 64) (Nat.mod_lt _ (by norm_num))

theorem b64Char_ne_cr_aux : ∀ m < 64, b64Alphabet.getD m 'A' ≠ '\r' := by
  decide

theorem b64Char_ne_lf_aux : ∀ m < 64, b64Alphabet.getD m 'A' ≠ '\n' := by
  decide

theorem b64Char_ne_cr (n : Nat) : b64Char n ≠ '\r' :=
  b64Char_ne_cr_aux (n % 64) (Nat.mod_lt _ (by norm_num))

theorem b64Char_ne_lf (n : Nat) : b64Char n ≠ '\n' :=
  b64Char_ne_lf_aux (n % 64) (Nat.mod_lt _ (by norm_num))

theorem b64EncodeChars_mem :
    ∀ bs : List Nat, ∀ c ∈ b64EncodeChars bs, c ≠ '\r' ∧ c ≠ '\n'
  | [] => by simp [b64EncodeChars]
  | [b1] => by
      intro c hc
      simp only [b64EncodeChars, List.mem_cons, List.not_mem_nil, or_false] at hc
      rcases hc with rfl | rfl | rfl | rfl
      all_goals first
        | exact ⟨b64Char_ne_cr _, b64Char_ne_lf _⟩
        | exact ⟨by decide, by decide⟩
  | [b1, b2] => by
      intro c hc
      simp only [b64EncodeChars, List.mem_cons, List.not_mem_nil, or_false] at hc
      rcases hc with rfl | rfl | rfl | rfl
      all_goals first
        | exact ⟨b64Char_ne_cr _, b64Char_ne_lf _⟩
        | exact ⟨by decide, by decide⟩
  | b1 :: b2 :: b3 :: rest => by
      intro c hc
      simp only [b64EncodeChars, List.mem_cons] at hc
      rcases hc with rfl | rfl | rfl | rfl | hmem
      · exact ⟨b64Char_ne_cr _, b64Char_ne_lf _⟩
      · exact ⟨b64Char_ne_cr _, b64Char_ne_lf _⟩
      · exact ⟨b64Char_ne_cr _, b64Char_ne_lf _⟩
      · exact ⟨b64Char_ne_cr _, b64Char_ne_lf _⟩
      · exact b64EncodeChars_mem rest c hmem

theorem filter_b64EncodeChars (bs : List Nat) :
    (b64EncodeChars bs).filter (fun c => c ≠ '\r' && c ≠ '\n') = b64EncodeChars bs := by
  rw [List.filter_eq_self]
  intro c hc
  have h := b64EncodeChars_mem bs c hc
  simp [h.1, h.2]

theorem b64DecodeGroups_encode :
    ∀ bs : List Nat, allBytes bs → b64DecodeGroups (b64EncodeChars bs) = some bs
  | [], _ => by simp [b64EncodeChars, b64DecodeGroups]
  | [b1], h => by
      have hb1 : b1 < 256 := h b1 (by simp)
      have h1 : b1 / 4 < 64 := by omega
      have h2 : b1 % 4 * 16 < 64 := by omega
      simp [b64EncodeChars, b64DecodeGroups, b64Index_b64Char,
        Nat.mod_eq_of_lt h1, Nat.mod_eq_of_lt h2]
      omega
  | [b1, b2], h => by
      have hb1 : b1 < 256 := h b1 (by simp)
      have hb2 : b2 < 256 := h b2 (by simp)
      have h1 : b1 / 4 < 64 := by omega
      have h2 : b1 % 4 * 16 + b2 / 16 < 64 := by omega
      have h3 : b2 % 16 * 4 < 64 := by omega
      simp [b64EncodeChars, b64DecodeGroups, b64Index_b64Char,
        Nat.mod_eq_of_lt h1, Nat.mod_eq_of_lt h2, Nat.mod_eq_of_lt h3,
        b64Char_ne_pad]
      omega
  | b1 :: b2 :: b3 :: rest, h => by
      have hb1 : b1 < 256 := h b1 (by simp)
      have hb2 : b2 < 256 := h b2 (by simp)
      have hb3 : b3 < 256 := h b3 (by simp)
      have hrest : allBytes rest := fun b hb => h b (by simp [hb])
      have ih := b64DecodeGroups_encode rest hrest
      have h1 : b1 / 4 < 64 := by omega
      have h2 : b1 % 4 * 16 + b2 / 16 < 64 := by omega
      have h3 : b2 % 16 * 4 + b3 / 64 < 64 := by omega
      have h4 : b3 % 64 < 64 := by omega
      simp [b64EncodeChars, b64DecodeGroups, b64Index_b64Char,
        Nat.mod_eq_of_lt h1, Nat.mod_eq_of_lt h2, Nat.mod_eq_of_lt h3,
        Nat.mod_eq_of_lt h4, b64Char_ne_pad, ih]
      omega

/-- Round-trip of the base64 model: decoding an encoded byte string
recovers it exactly. -/
theorem b64Decode_b64EncodeChars (bs : List Nat) (h : allBytes bs) :
    b64Decode (b64EncodeChars bs) = some bs := by
  unfold b64Decode
  rw [filter_b64EncodeChars, b64DecodeGroups_encode bs h]

/-! ## NaCl box (executable model of the external library
`golang.org/x/crypto/nacl/box`)

The library is external to the repository; it is modelled here at the
level of its documented interface contract: 32-byte Curve25519 key
pairs with a symmetric shared key (`shared(pub_A, priv_B) =
shared(pub_B, priv_A)`), `Seal` appending `Overhead = 16` tag bytes
plus a keystream-enciphered message to its first argument, and `Open`
verifying the tag before returning the plaintext, failing otherwise.
The concrete keystream and tag functions are stand-ins; no theorem
below depends on more than the contract. -/

/-- Little-endian byte-string value. -/
def bytesToNat : List Nat → Nat
  | [] => 0
  | b :: rest => b % 256 + 256 * bytesToNat rest

/-- The `w` little-endian bytes of `v`. -/
def natToBytes : Nat → Nat → List Nat
  | 0, _ => []
  | w + 1, v => v % 256 :: natToBytes w (v / 256)

theorem natToBytes_length : ∀ (w v : Nat), (natToBytes w v).length = w
  | 0, _ => rfl
  | w + 1, v => by simp [natToBytes, natToBytes_length w]

theorem natToBytes_allBytes : ∀ (w v : Nat), allBytes (natToBytes w v)
  | 0, _ => by simp [natToBytes, allBytes]
  | w + 1, v => by
      intro b hb
      simp only [natToBytes, List.mem_cons] at hb
      rcases hb with rfl | hb
      · exact Nat.mod_lt _ (by norm_num)
      · exact natToBytes_allBytes w (v / 256) b hb

theorem bytesToNat_natToBytes :
    ∀ (w v : Nat), v < 256 ^ w → bytesToNat (natToBytes w v) = v
  | 0, v, h => by
      simp only [pow_zero, Nat.lt_one_iff] at h
      simp [natToBytes, bytesToNat, h]
  | w + 1, v, h => by
      have hdiv : v / 256 < 256 ^ w := by
        rw [Nat.div_lt_iff_lt_mul (by norm_num)]
        calc v < 256 ^ (w + 1) := h
        _ = 256 ^ w * 256 := by ring
      simp [natToBytes, bytesToNat, bytesToNat_natToBytes w (v / 256) hdiv]
      omega

/-- The Curve25519 field prime. -/
def curveP : Nat := 2 ^ 255 - 19

/-- Model of scalar multiplication of the base point by a private key:
modular exponentiation of the generator. -/
def curveBase (priv : List Nat) : Nat := 9 ^ bytesToNat priv % curveP

/-- The 32-byte public key derived from a private key
(`box.GenerateKey` returns such a pair). -/
def curvePub (priv : List Nat) : List Nat := natToBytes 32 (curveBase priv)

/-- The shared key computed from a peer public key and an own private
key (`box.Precompute`). -/
def boxSharedKey (peerPublic ownPrivate : List Nat) : Nat :=
  bytesToNat peerPublic ^ bytesToNat ownPrivate % curveP

theorem curveP_pos : 0 < curveP := by norm_num [curveP]

theorem curveP_lt : curveP < 256 ^ 32 := by norm_num [curveP]

/-- Diffie-Hellman symmetry: both sides derive the same shared key. -/
theorem boxSharedKey_symm (a b : List Nat) :
    boxSharedKey (curvePub a) b = boxSharedKey (curvePub b) a := by
  have key : ∀ x y : List Nat,
      boxSharedKey (curvePub x) y =
        9 ^ (bytesToNat x * bytesToNat y) % curveP := by
    intro x y
    unfold boxSharedKey curvePub curveBase
    rw [bytesToNat_natToBytes 32 _ (lt_trans (Nat.mod_lt _ curveP_pos) curveP_lt)]
    rw [← Nat.pow_mod, ← pow_mul]
  rw [key, key, Nat.mul_comm]

/-- One keystream byte (stand-in for the salsa20 stream). -/
def keyStreamByte (k : Nat) (nonce : List Nat) (i : Nat) : Nat :=
  (k + bytesToNat nonce * 31 + i * 17) % 256

/-- Encipher a message with the keystream starting at position `i`. -/
def sealStream (k : Nat) (nonce : List Nat) : Nat → List Nat → List Nat
  | _, [] => []
  | i, b :: rest =>
      (b + keyStreamByte k nonce i) % 256 :: sealStream k nonce (i + 1) rest

/-- Decipher a message with the keystream starting at position `i`. -/
def openStream (k : Nat) (nonce : List Nat) : Nat → List Nat → List Nat
  | _, [] => []
  | i, b :: rest =>
      (b + 256 - keyStreamByte k nonce i) % 256 :: openStream k nonce (i + 1) rest

theorem openStream_sealStream (k : Nat) (nonce : List Nat) :
    ∀ (i : Nat) (msg : List Nat), allBytes msg →
      openStream k nonce i (sealStream k nonce i msg) = msg
  | _, [], _ => rfl
  | i, b :: rest, h => by
      have hb : b < 256 := h b (by simp)
      have hrest : allBytes rest := fun x hx => h x (by simp [hx])
      have hks : keyStreamByte k nonce i < 256 := Nat.mod_lt _ (by norm_num)
      simp only [sealStream, openStream,
        openStream_sealStream k nonce (i + 1) rest hrest]
      congr 1
      omega

theorem sealStream_allBytes (k : Nat) (nonce : List Nat) :
    ∀ (i : Nat) (msg : List Nat), allBytes (sealStream k nonce i msg)
  | _, [] => by simp [sealStream, allBytes]
  | i, b :: rest => by
      intro x hx
      simp only [sealStream, List.mem_cons] at hx
      rcases hx with rfl | hx
      · exact Nat.mod_lt _ (by norm_num)
      · exact sealStream_allBytes k nonce (i + 1) rest x hx

/-- The 16-byte authentication tag (stand-in for poly1305; `box.Overhead
= 16`). -/
def tagBytes (k : Nat) (nonce msg : List Nat) : List Nat :=
  natToBytes 16 ((k + bytesToNat nonce * 3 + bytesToNat msg * 7 + msg.length) % 256 ^ 16)

theorem tagBytes_length (k : Nat) (nonce msg : List Nat) :
    (tagBytes k nonce msg).length = 16 := natToBytes_length 16 _

/-- Tag and enciphered message appended by `box.Seal` after its `out`
argument. -/
def boxSealBody (k : Nat) (nonce msg : List Nat) : List Nat :=
  tagBytes k nonce msg ++ sealStream k nonce 0 msg

theorem boxSealBody_length (k : Nat) (nonce msg : List Nat) :
    16 ≤ (boxSealBody k nonce msg).length := by
  simp [boxSealBody, tagBytes_length]

theorem boxSealBody_allBytes (k : Nat) (nonce msg : List Nat) :
    allBytes (boxSealBody k nonce msg) := by
  intro b hb
  simp only [boxSealBody, List.mem_append] at hb
  rcases hb with hb | hb
  · exact natToBytes_allBytes 16 _ b hb
  · exact sealStream_allBytes k nonce 0 msg b hb

/-- Model of `box.Seal(out, message, nonce, peersPublicKey, privateKey)`:
appends the sealed message to `out`. -/
def boxSeal (out msg nonce peerPublic ownPrivate : List Nat) : List Nat :=
  out ++ boxSealBody (boxSharedKey peerPublic ownPrivate) nonce msg

/-- Model of `box.Open(nil, box, nonce, peersPublicKey, privateKey)`: verifies
the tag and returns the plaintext, or reports failure. -/
def boxOpen (box nonce peerPublic ownPrivate : List Nat) : Option (List Nat) :=
  let k := boxSharedKey peerPublic ownPrivate
  if box.length < 16 then none
  else
    let msg := openStream k nonce 0 (box.drop 16)
    if box.take 16 = tagBytes k nonce msg then some msg else none

theorem boxOpen_boxSealBody (peerPublic ownPrivate nonce msg : List Nat)
    (h : allBytes msg) :
    boxOpen (boxSealBody (boxSharedKey peerPublic ownPrivate) nonce msg)
      nonce peerPublic ownPrivate = some msg := by
  unfold boxOpen boxSealBody
  have htake : (tagBytes (boxSharedKey peerPublic ownPrivate) nonce msg ++
      sealStream (boxSharedKey peerPublic ownPrivate) nonce 0 msg).take 16 =
      tagBytes (boxSharedKey peerPublic ownPrivate) nonce msg := by
    rw [← tagBytes_length (boxSharedKey peerPublic ownPrivate) nonce msg]
    exact List.take_left _ _
  have hdrop : (tagBytes (boxSharedKey peerPublic ownPrivate) nonce msg ++
      sealStream (boxSharedKey peerPublic ownPrivate) nonce 0 msg).drop 16 =
      sealStream (boxSharedKey peerPublic ownPrivate) nonce 0 msg := by
    rw [← tagBytes_length (boxSharedKey peerPublic ownPrivate) nonce msg]
    exact List.drop_left _ _
  rw [if_neg (by simp [tagBytes_length])]
  rw [hdrop, htake, openStream_sealStream _ _ 0 msg h, if_pos rfl]

/-! ## Message cipher (`encryptMessage` / `decryptMessage` in dm.go)

`encryptMessage` takes the 24 random nonce bytes read from
`crypto/rand` as an explicit argument; the Go code draws them freshly
on every call via `io.ReadFull(rand.Reader, nonce[:])`. -/

/-- Embedding of `encryptMessage(message, senderPrivateKey, recipientPublicKey)`:
seal under a fresh nonce, passing the nonce itself as the `out` value
so the result is `nonce ‖ sealed`, then base64-encode. -/
def encryptMessage (message nonce senderPrivateKey recipientPublicKey : List Nat) :
    List Char :=
  b64EncodeChars (boxSeal nonce message nonce recipientPublicKey senderPrivateKey)

/-- The three distinct error results of `decryptMessage`, in source
order: `"decode: %w"`, `"invalid encrypted message"`, `"decryption
failed"`. -/
inductive DMDecryptError
  | decodeFailed
  | invalidEncryptedMessage
  | decryptionFailed
deriving DecidableEq, Repr

/-- Embedding of `decryptMessage(encrypted, recipientPrivateKey, senderPublicKey)`:
base64-decode, check the 24-byte minimum length, split off the nonce,
and open the remainder. -/
def decryptMessage (encrypted : List Char)
    (recipientPrivateKey senderPublicKey : List Nat) :
    Except DMDecryptError (List Nat) :=
  match b64Decode encrypted with
  | none => .error .decodeFailed
  | some data =>
    if data.length < 24 then .error .invalidEncryptedMessage
    else
      let nonce := data.take 24
      match boxOpen (data.drop 24) nonce senderPublicKey recipientPrivateKey with
      | none => .error .decryptionFailed
      | some decrypted => .ok decrypted

theorem b64Decode_encryptMessage
    (msg nonce senderPrivateKey recipientPublicKey : List Nat)
    (_hmsg : allBytes msg) (hnb : allBytes nonce) :
    b64Decode (encryptMessage msg nonce senderPrivateKey recipientPublicKey) =
      some (nonce ++
        boxSealBody (boxSharedKey recipientPublicKey senderPrivateKey) nonce msg) := by
  unfold encryptMessage boxSeal
  apply b64Decode_b64EncodeChars
  intro b hb
  rcases List.mem_append.mp hb with hb | hb
  · exact hnb b hb
  · exact boxSealBody_allBytes _ nonce msg b hb

/-- C1: for every plaintext byte string `P` and private keys `a`, `b`
with public keys `curvePub a`, `curvePub b`, decrypting
`encryptMessage(P, a, pub b)` with `decryptMessage(·, b, pub a)`
succeeds and returns exactly `P`.  The 24 random nonce bytes drawn
inside `encryptMessage` appear as the explicit `nonce` argument. -/
theorem dm_encrypt_decrypt_roundtrip
    (msg nonce aPrivate bPrivate : List Nat)
    (hmsg : allBytes msg) (hlen : nonce.length = 24) (hnb : allBytes nonce) :
    decryptMessage (encryptMessage msg nonce aPrivate (curvePub bPrivate))
      bPrivate (curvePub aPrivate) = .ok msg := by
  have hdec := b64Decode_encryptMessage msg nonce aPrivate (curvePub bPrivate) hmsg hnb
  have hlen2 : ¬ (nonce ++
      boxSealBody (boxSharedKey (curvePub bPrivate) aPrivate) nonce msg).length < 24 := by
    simp [hlen]
  have htake : (nonce ++
      boxSealBody (boxSharedKey (curvePub bPrivate) aPrivate) nonce msg).take 24 =
      nonce := by
    rw [← hlen]; exact List.take_left _ _
  have hdrop : (nonce ++
      boxSealBody (boxSharedKey (curvePub bPrivate) aPrivate) nonce msg).drop 24 =
      boxSealBody (boxSharedKey (curvePub bPrivate) aPrivate) nonce msg := by
    rw [← hlen]; exact List.drop_left _ _
  have hopen : boxOpen
      (boxSealBody (boxSharedKey (curvePub bPrivate) aPrivate) nonce msg)
      nonce (curvePub aPrivate) bPrivate = some msg := by
    rw [boxSharedKey_symm bPrivate aPrivate]
    exact boxOpen_boxSealBody (curvePub aPrivate) bPrivate nonce msg hmsg
  simp [decryptMessage, hdec, hlen2, htake, hdrop, hopen]
  omega

/-- Witness for C1 at a concrete plaintext, nonce and key pair. -/
theorem dm_encrypt_decrypt_roundtrip_witness :
    allBytes [104, 105] ∧ (List.replicate 24 7).length = 24 ∧
    decryptMessage (encryptMessage [104, 105] (List.replicate 24 7) [1] (curvePub [2]))
      [2] (curvePub [1]) = .ok [104, 105] :=
  ⟨by decide, by decide,
    dm_encrypt_decrypt_roundtrip [104, 105] (List.replicate 24 7) [1] [2]
      (by decide) (by decide) (by decide)⟩

/-- C2: `decryptMessage` fails with the structural `decode` error when
base64 decoding fails, with the structural `invalid encrypted message`
error when the decoded payload is shorter than 24 bytes, and with the
distinct `decryption failed` error — never any plaintext — when the
sealed box does not open; the three errors are pairwise distinct
values and none of these cases returns (even partial) plaintext. -/
theorem decryptMessage_error_taxonomy (s : List Char)
    (recipientPrivateKey senderPublicKey : List Nat) :
    (b64Decode s = none →
      decryptMessage s recipientPrivateKey senderPublicKey = .error .decodeFailed)
  ∧ (∀ data, b64Decode s = some data → data.length < 24 →
      decryptMessage s recipientPrivateKey senderPublicKey =
        .error .invalidEncryptedMessage)
  ∧ (∀ data, b64Decode s = some data → 24 ≤ data.length →
      boxOpen (data.drop 24) (data.take 24) senderPublicKey recipientPrivateKey = none →
      decryptMessage s recipientPrivateKey senderPublicKey = .error .decryptionFailed
        ∧ ∀ m, decryptMessage s recipientPrivateKey senderPublicKey ≠ .ok m)
  ∧ (DMDecryptError.decryptionFailed ≠ .decodeFailed
      ∧ DMDecryptError.decryptionFailed ≠ .invalidEncryptedMessage) := by
  refine ⟨?_, ?_, ?_, by decide, by decide⟩
  · intro h
    unfold decryptMessage
    rw [h]
  · intro data hdata hshort
    simp [decryptMessage, hdata, hshort]
  · intro data hdata hlong hopen
    have hres : decryptMessage s recipientPrivateKey senderPublicKey =
        .error .decryptionFailed := by
      simp [decryptMessage, hdata, Nat.not_lt.mpr hlong, hopen]
    exact ⟨hres, fun m hm => by rw [hres] at hm; exact Except.noConfusion hm⟩

/-- Witness for C2: a non-base64 input, a too-short input, and a
structurally valid envelope that does not authenticate. -/
theorem decryptMessage_error_taxonomy_witness :
    b64Decode ['!'] = none ∧
    decryptMessage ['!'] [] [] = .error .decodeFailed ∧
    decryptMessage [] [] [] = .error .invalidEncryptedMessage ∧
    decryptMessage (b64EncodeChars (List.replicate 24 0)) [] [] =
      .error .decryptionFailed :=
  ⟨by decide,
   (decryptMessage_error_taxonomy ['!'] [] []).1 (by decide),
   (decryptMessage_error_taxonomy [] [] []).2.1 [] (by decide) (by decide),
   ((decryptMessage_error_taxonomy (b64EncodeChars (List.replicate 24 0)) [] []).2.2.1
      (List.replicate 24 0) (by decide) (by decide) (by decide)).1⟩

/-- C5: the transport string is exactly the base64 encoding of the
24-byte nonce followed by the sealed ciphertext (tag included), and the
first 24 decoded bytes are exactly the nonce that was sealed under. -/
theorem encryptMessage_wire_format
    (msg nonce senderPrivateKey recipientPublicKey : List Nat)
    (hmsg : allBytes msg) (hlen : nonce.length = 24) (hnb : allBytes nonce) :
    encryptMessage msg nonce senderPrivateKey recipientPublicKey =
      b64EncodeChars (nonce ++
        boxSealBody (boxSharedKey recipientPublicKey senderPrivateKey) nonce msg)
    ∧ (b64Decode (encryptMessage msg nonce senderPrivateKey recipientPublicKey)).map
        (List.take 24) = some nonce := by
  constructor
  · rfl
  · rw [b64Decode_encryptMessage msg nonce senderPrivateKey recipientPublicKey hmsg hnb]
    simp only [Option.map_some']
    congr 1
    rw [← hlen]
    exact List.take_left _ _

/-- Witness for C5 at a concrete plaintext, nonce and keys. -/
theorem encryptMessage_wire_format_witness :
    allBytes [1, 2, 3] ∧ (List.replicate 24 9).length = 24 ∧
    (b64Decode (encryptMessage [1, 2, 3] (List.replicate 24 9) [5] [6])).map
      (List.take 24) = some (List.replicate 24 9) :=
  ⟨by decide, by decide,
    (encryptMessage_wire_format [1, 2, 3] (List.replicate 24 9) [5] [6]
      (by decide) (by decide) (by decide)).2⟩

/-- C6: two calls of `encryptMessage` on the same plaintext and key pair
whose fresh random nonces differ produce different envelopes, with
different nonces embedded in them. -/
theorem encryptMessage_nonce_uniqueness
    (msg n1 n2 senderPrivateKey recipientPublicKey : List Nat)
    (hmsg : allBytes msg)
    (h1 : n1.length = 24) (hb1 : allBytes n1)
    (h2 : n2.length = 24) (hb2 : allBytes n2)
    (hne : n1 ≠ n2) :
    encryptMessage msg n1 senderPrivateKey recipientPublicKey ≠
      encryptMessage msg n2 senderPrivateKey recipientPublicKey
    ∧ (b64Decode (encryptMessage msg n1 senderPrivateKey recipientPublicKey)).map
        (List.take 24) ≠
      (b64Decode (encryptMessage msg n2 senderPrivateKey recipientPublicKey)).map
        (List.take 24) := by
  have w1 := (encryptMessage_wire_format msg n1 senderPrivateKey recipientPublicKey
    hmsg h1 hb1).2
  have w2 := (encryptMessage_wire_format msg n2 senderPrivateKey recipientPublicKey
    hmsg h2 hb2).2
  have hnonces : (b64Decode (encryptMessage msg n1 senderPrivateKey recipientPublicKey)).map
        (List.take 24) ≠
      (b64Decode (encryptMessage msg n2 senderPrivateKey recipientPublicKey)).map
        (List.take 24) := by
    rw [w1, w2]
    intro h
    exact hne (Option.some.inj h)
  refine ⟨fun h => hnonces (by rw [h]), hnonces⟩

/-- Witness for C6 at two concrete distinct nonces. -/
theorem encryptMessage_nonce_uniqueness_witness :
    List.replicate 24 1 ≠ List.replicate 24 2 ∧
    encryptMessage [42] (List.replicate 24 1) [5] [6] ≠
      encryptMessage [42] (List.replicate 24 2) [5] [6] :=
  ⟨by decide,
    (encryptMessage_nonce_uniqueness [42] (List.replicate 24 1) (List.replicate 24 2)
      [5] [6] (by decide) (by decide) (by decide) (by decide) (by decide)
      (by decide)).1⟩

/-! ## Key store (`loadDMKeys` / `saveDMKeys` / `loadOrGenerateDMKeys`)

The key file `~/.msh/keys/dm_private.key` is a JSON document with
`private_key` and `public_key` base64 string fields.  Its observable
states for `loadDMKeys` are: the file is absent/unreadable
(`os.ReadFile` fails), present but not a valid JSON key document
(`json.Unmarshal` fails), or a parsed document carrying the two raw
base64 strings.  `json.Unmarshal ∘ json.MarshalIndent` restores the
two fields, so a file written by `saveDMKeys` is a `keyJson` of the two
encoded strings. -/

inductive DMKeyFile
  | absent
  | invalidJson
  | keyJson (privateKeyB64 publicKeyB64 : List Char)
deriving DecidableEq, Repr

/-- The distinct error results of `loadDMKeys`, in source order:
`"read private key: %w"`, `"parse key data: %w"`,
`"decode private key: %w"`, `"decode public key: %w"`. -/
inductive KeyLoadError
  | readFailed
  | parseFailed
  | decodePrivateFailed
  | decodePublicFailed
deriving DecidableEq, Repr

/-- Embedding of `var key [32]byte; copy(key[:], bs)`: the first `min 32 bs.length`
bytes of `bs`, zero elsewhere. -/
def copyTo32 (bs : List Nat) : List Nat :=
  bs.take 32 ++ List.replicate (32 - bs.length) 0

/-- Embedding of `loadDMKeys()`: read the key file, parse the JSON document, base64
decode both fields, and copy the decoded bytes into 32-byte arrays.
The source performs no length check on the decoded byte strings. -/
def loadDMKeys : DMKeyFile → Except KeyLoadError (List Nat × List Nat)
  | .absent => .error .readFailed
  | .invalidJson => .error .parseFailed
  | .keyJson privateKeyB64 publicKeyB64 =>
    match b64Decode privateKeyB64 with
    | none => .error .decodePrivateFailed
    | some privateKeyBytes =>
      match b64Decode publicKeyB64 with
      | none => .error .decodePublicFailed
      | some publicKeyBytes =>
          .ok (copyTo32 privateKeyBytes, copyTo32 publicKeyBytes)

/-- Embedding of `saveDMKeys(privateKey, publicKey)`: write the JSON document with
the base64-encoded key bytes (directory creation and file write are
modelled as succeeding; their failures abort the Go caller). -/
def saveDMKeys (privateKey publicKey : List Nat) : DMKeyFile :=
  .keyJson (b64EncodeChars privateKey) (b64EncodeChars publicKey)

/-- Embedding of `loadOrGenerateDMKeys()`: return the loaded keys if `loadDMKeys`
succeeds; on any load error, generate a fresh pair (`box.GenerateKey`,
passed here as the two `fresh*` arguments) and save it.  The resulting
key file is returned alongside as the new state. -/
def loadOrGenerateDMKeys (file : DMKeyFile) (freshPrivate freshPublic : List Nat) :
    (List Nat × List Nat) × DMKeyFile :=
  match loadDMKeys file with
  | .ok keys => (keys, file)
  | .error _ => ((freshPrivate, freshPublic), saveDMKeys freshPrivate freshPublic)

/-- The `HasKey` state of the spec's key-store state machine: `loadDMKeys`
succeeds on the current key file. -/
def hasKey (file : DMKeyFile) : Bool :=
  match loadDMKeys file with
  | .ok _ => true
  | .error _ => false

/-- Outcome of `dm key init`, in source order: keys already exist and
`--force` was not given (exit 1, file untouched); key registration with
the server failed (exit 1, file already overwritten); success. -/
inductive KeyInitOutcome
  | alreadyExists
  | registrationFailed
  | initialized
deriving DecidableEq, Repr

/-- The `dm key init` command: without `--force` it refuses when
`loadDMKeys` succeeds; otherwise it generates, saves, and registers
the public key with the server. -/
def dmKeyInit (force : Bool) (file : DMKeyFile)
    (freshPrivate freshPublic : List Nat) (registerOk : Bool) :
    KeyInitOutcome × DMKeyFile :=
  match force, loadDMKeys file with
  | false, .ok _ => (.alreadyExists, file)
  | _, _ =>
      let file' := saveDMKeys freshPrivate freshPublic
      if registerOk then (.initialized, file') else (.registrationFailed, file')

/-- Structural validity of a raw key byte string, as produced by
`box.GenerateKey`: exactly 32 bytes. -/
def validKey (k : List Nat) : Prop := k.length = 32 ∧ allBytes k

instance (k : List Nat) : Decidable (validKey k) := by
  unfold validKey; infer_instance

theorem copyTo32_self (bs : List Nat) (h : bs.length = 32) : copyTo32 bs = bs := by
  unfold copyTo32
  rw [h, List.take_of_length_le (le_of_eq h)]
  simp

/-- A key file written by `saveDMKeys` loads back to exactly the saved
keys. -/
theorem loadDMKeys_saveDMKeys (privateKey publicKey : List Nat)
    (hp : validKey privateKey) (hq : validKey publicKey) :
    loadDMKeys (saveDMKeys privateKey publicKey) = .ok (privateKey, publicKey) := by
  unfold saveDMKeys
  simp [loadDMKeys, b64Decode_b64EncodeChars privateKey hp.2,
    b64Decode_b64EncodeChars publicKey hq.2,
    copyTo32_self privateKey hp.1, copyTo32_self publicKey hq.1]

/-- C3 (the code, evaluated at a corrupt key file): `loadDMKeys`
reports the corruption, but `loadOrGenerateDMKeys` swallows the error,
silently generates a fresh key pair and overwrites the key file — both
for a file that fails JSON parsing and for one whose fields fail base64
decoding.  This contradicts the claim that the corrupt-key condition is
surfaced and not auto-repaired. -/
theorem loadOrGenerateDMKeys_corrupt_autorepairs :
    loadDMKeys .invalidJson = .error .parseFailed
  ∧ loadOrGenerateDMKeys .invalidJson (List.replicate 32 1) (List.replicate 32 2) =
      ((List.replicate 32 1, List.replicate 32 2),
        saveDMKeys (List.replicate 32 1) (List.replicate 32 2))
  ∧ loadDMKeys (.keyJson ['!'] ['!']) = .error .decodePrivateFailed
  ∧ loadOrGenerateDMKeys (.keyJson ['!'] ['!'])
        (List.replicate 32 1) (List.replicate 32 2) =
      ((List.replicate 32 1, List.replicate 32 2),
        saveDMKeys (List.replicate 32 1) (List.replicate 32 2))
  ∧ saveDMKeys (List.replicate 32 1) (List.replicate 32 2) ≠ .invalidJson
  ∧ saveDMKeys (List.replicate 32 1) (List.replicate 32 2) ≠ .keyJson ['!'] ['!'] :=
  ⟨rfl, rfl, rfl, rfl, by decide, by decide⟩

/-- C4 (the code, evaluated at key files whose fields decode to fewer
than 32 bytes): `loadDMKeys` succeeds instead of failing, returning an
all-zero key pair for empty fields and a zero-padded pair for a 3-byte
decode.  This contradicts the claim that `load()` fails explicitly on
wrong decoded length and never returns a zero key. -/
theorem loadDMKeys_wrong_length_returns_zero_key :
    b64Decode [] = some [] ∧ ([] : List Nat).length ≠ 32
  ∧ loadDMKeys (.keyJson [] []) =
      .ok (List.replicate 32 0, List.replicate 32 0)
  ∧ b64Decode ['A', 'Q', 'I', 'D'] = some [1, 2, 3]
  ∧ loadDMKeys (.keyJson ['A', 'Q', 'I', 'D'] ['A', 'Q', 'I', 'D']) =
      .ok ([1, 2, 3] ++ List.replicate 29 0, [1, 2, 3] ++ List.replicate 29 0) :=
  ⟨rfl, by decide, rfl, rfl, rfl⟩

/-- C8: the key-store state machine.  With `NoKey` = `hasKey file =
false` and `HasKey` = `hasKey file = true`: from `NoKey`, both the
automatic `loadOrGenerateDMKeys` and an explicit `dm key init` move to
`HasKey` by generating and saving; from `HasKey`, `dm key init`
without `--force` fails with "already exist" and leaves the file
unchanged, `loadOrGenerateDMKeys` leaves the file unchanged (so only a
forced init replaces an existing pair), and neither operation ever
moves `HasKey` back to `NoKey`. -/
theorem dm_key_state_machine (file : DMKeyFile)
    (freshPrivate freshPublic : List Nat) (force registerOk : Bool)
    (hp : validKey freshPrivate) (hq : validKey freshPublic) :
    (hasKey file = false →
      hasKey (loadOrGenerateDMKeys file freshPrivate freshPublic).2 = true)
  ∧ (hasKey file = false →
      hasKey (dmKeyInit force file freshPrivate freshPublic registerOk).2 = true)
  ∧ (hasKey file = true →
      dmKeyInit false file freshPrivate freshPublic registerOk =
        (.alreadyExists, file))
  ∧ (hasKey file = true →
      (loadOrGenerateDMKeys file freshPrivate freshPublic).2 = file)
  ∧ (hasKey file = true →
      hasKey (dmKeyInit force file freshPrivate freshPublic registerOk).2 = true) := by
  have hsaved : hasKey (saveDMKeys freshPrivate freshPublic) = true := by
    unfold hasKey
    rw [loadDMKeys_saveDMKeys freshPrivate freshPublic hp hq]
  rcases hload : loadDMKeys file with e | keys
  · have hk : hasKey file = false := by unfold hasKey; rw [hload]
    refine ⟨?_, ?_, ?_, ?_, ?_⟩
    · intro _
      unfold loadOrGenerateDMKeys
      rw [hload]
      exact hsaved
    · intro _
      unfold dmKeyInit
      rcases force with _ | _ <;> rw [hload] <;>
        rcases registerOk with _ | _ <;> simpa using hsaved
    · intro hc; rw [hk] at hc; exact Bool.noConfusion hc
    · intro hc; rw [hk] at hc; exact Bool.noConfusion hc
    · intro hc; rw [hk] at hc; exact Bool.noConfusion hc
  · have hk : hasKey file = true := by unfold hasKey; rw [hload]
    refine ⟨?_, ?_, ?_, ?_, ?_⟩
    · intro hc; rw [hk] at hc; exact Bool.noConfusion hc
    · intro hc; rw [hk] at hc; exact Bool.noConfusion hc
    · intro _
      unfold dmKeyInit
      rw [hload]
    · intro _
      unfold loadOrGenerateDMKeys
      rw [hload]
    · intro _
      unfold dmKeyInit
      rcases force with _ | _
      · rw [hload]; exact hk
      · rw [hload]
        rcases registerOk with _ | _ <;> simpa using hsaved

/-- Witness for C8 starting from `NoKey` (absent file) and from
`HasKey` (a freshly saved file). -/
theorem dm_key_state_machine_witness :
    validKey (List.replicate 32 3) ∧ hasKey DMKeyFile.absent = false ∧
    hasKey (loadOrGenerateDMKeys DMKeyFile.absent
      (List.replicate 32 3) (List.replicate 32 4)).2 = true ∧
    dmKeyInit false (saveDMKeys (List.replicate 32 3) (List.replicate 32 4))
        (List.replicate 32 5) (List.replicate 32 6) true =
      (.alreadyExists, saveDMKeys (List.replicate 32 3) (List.replicate 32 4)) :=
  ⟨by decide, rfl,
    (dm_key_state_machine DMKeyFile.absent (List.replicate 32 3) (List.replicate 32 4)
      false true (by decide) (by decide)).1 rfl,
    (dm_key_state_machine (saveDMKeys (List.replicate 32 3) (List.replicate 32 4))
      (List.replicate 32 5) (List.replicate 32 6) false true
      (by decide) (by decide)).2.2.1 (by decide)⟩

/-- C9: a second `loadOrGenerateDMKeys` call — whatever fresh keys it
would generate — returns exactly the keys the first call returned, and
leaves the key file as the first call left it. -/
theorem loadOrGenerateDMKeys_idempotent (file : DMKeyFile)
    (freshPrivate freshPublic freshPrivate' freshPublic' : List Nat)
    (hp : validKey freshPrivate) (hq : validKey freshPublic) :
    loadOrGenerateDMKeys (loadOrGenerateDMKeys file freshPrivate freshPublic).2
        freshPrivate' freshPublic' =
      loadOrGenerateDMKeys file freshPrivate freshPublic := by
  rcases hload : loadDMKeys file with e | keys
  · have h1 : loadOrGenerateDMKeys file freshPrivate freshPublic =
        ((freshPrivate, freshPublic), saveDMKeys freshPrivate freshPublic) := by
      unfold loadOrGenerateDMKeys; rw [hload]
    rw [h1]
    unfold loadOrGenerateDMKeys
    rw [loadDMKeys_saveDMKeys freshPrivate freshPublic hp hq]
  · have h1 : loadOrGenerateDMKeys file freshPrivate freshPublic = (keys, file) := by
      unfold loadOrGenerateDMKeys; rw [hload]
    rw [h1]
    unfold loadOrGenerateDMKeys
    rw [hload]

/-- Witness for C9 starting from an absent key file. -/
theorem loadOrGenerateDMKeys_idempotent_witness :
    validKey (List.replicate 32 3) ∧
    loadOrGenerateDMKeys
        (loadOrGenerateDMKeys DMKeyFile.absent
          (List.replicate 32 3) (List.replicate 32 4)).2
        (List.replicate 32 5) (List.replicate 32 6) =
      loadOrGenerateDMKeys DMKeyFile.absent
        (List.replicate 32 3) (List.replicate 32 4) :=
  ⟨by decide,
    loadOrGenerateDMKeys_idempotent DMKeyFile.absent
      (List.replicate 32 3) (List.replicate 32 4)
      (List.replicate 32 5) (List.replicate 32 6) (by decide) (by decide)⟩

/-! ## The `dm` send command (`dmCmd.Run` in dm.go)

The model starts after argument/stdin assembly (lines 25–47): `content`
is the raw message text.  The remote service's responses and the fresh
key material are passed in a `DMClientEnv`; the returned event list
records, in order, every key-store access and network call the command
performs. -/

/-- Model of `unicode.IsSpace` (`strings.TrimSpace` trims these): Latin-1 white
space and the Unicode White_Space code points. -/
def goIsSpace (c : Char) : Bool :=
  c = '\t' || c = '\n' || c.toNat = 11 || c.toNat = 12 || c = '\r' || c = ' ' ||
  c.toNat = 133 || c.toNat = 160 || c.toNat = 0x1680 ||
  (0x2000 ≤ c.toNat && c.toNat ≤ 0x200A) ||
  c.toNat = 0x2028 || c.toNat = 0x2029 || c.toNat = 0x202F ||
  c.toNat = 0x205F || c.toNat = 0x3000

/-- Model of `strings.TrimSpace`: drop white space from both ends. -/
def goTrimSpace (s : List Char) : List Char :=
  ((s.dropWhile goIsSpace).reverse.dropWhile goIsSpace).reverse

/-- UTF-8 encoding of one code point (Go's `[]byte(string)`). -/
def utf8EncodeChar (c : Char) : List Nat :=
  let n := c.toNat
  if n < 128 then [n]
  else if n < 2048 then [192 + n / 64, 128 + n % 64]
  else if n < 65536 then [224 + n / 4096, 128 + n / 64 % 64, 128 + n % 64]
  else [240 + n / 262144, 128 + n / 4096 % 64, 128 + n / 64 % 64, 128 + n % 64]

/-- UTF-8 encoding of a string (Go's `[]byte(message)`). -/
def utf8Bytes (s : List Char) : List Nat := (s.map utf8EncodeChar).flatten

/-- Embedding of `client.DMKey`: a registered DM public key record. -/
structure DMKey where
  userId : String
  publicKey : List Char
  createdAt : Nat
deriving DecidableEq, Repr

/-- Embedding of `client.DM`: a direct-message record returned by the service. -/
structure DM where
  id : String
  senderId : String
  recipientId : String
  content : List Char
  assetIds : List String
  createdAt : Nat
deriving DecidableEq, Repr

/-- Embedding of `decodePublicKey(encoded)`: base64 decode and require exactly 32
bytes. -/
def decodePublicKey (encoded : List Char) : Option (List Nat) :=
  match b64Decode encoded with
  | none => none
  | some bytes => if bytes.length ≠ 32 then none else some bytes

/-- Key-store accesses and network calls made by `dmCmd.Run`, in
program order. -/
inductive DMEvent
  | keyStoreAccess
  | keyFetch
  | encryptOp
  | sendCall
  | registerCall
deriving DecidableEq, Repr

/-- The failure exits of `dmCmd.Run` reachable in this model, in source
order.  (The `key management` exit is unreachable here because the
model's `loadOrGenerateDMKeys` cannot fail: its Go failure modes are
random-source and filesystem errors, which are outside the model.) -/
inductive DMSendError
  | emptyContent
  | failedToGetRecipientKey
  | invalidRecipientKey
  | sendFailed
deriving DecidableEq, Repr

/-- The environment of one `dm` send: the current key file, the fresh
key material `box.GenerateKey` would produce, the service's response to
`GetDMKey(recipient)`, the fresh nonce bytes, and the service's
responses to `SendDM` and `RegisterDMKey`. -/
structure DMClientEnv where
  keyFile : DMKeyFile
  freshPrivate : List Nat
  freshPublic : List Nat
  recipientKeyResp : Except String DMKey
  nonce : List Nat
  sendResp : Except String DM
  registerResp : Except String DMKey
deriving Repr

/-- Embedding of `dmCmd.Run` from the empty-content check on (dm.go lines 48–107):
trim and reject blank content, load-or-generate keys, fetch and decode
the recipient's key, encrypt, send, and finally best-effort register
the own public key (`_ = registerDMKeyIfNeeded(c, publicKey)` — the
result is discarded). -/
def dmSend (content : List Char) (env : DMClientEnv) :
    Except DMSendError DM × List DMEvent :=
  let trimmed := goTrimSpace content
  if trimmed = [] then (.error .emptyContent, [])
  else
    let keys := (loadOrGenerateDMKeys env.keyFile env.freshPrivate env.freshPublic).1
    match env.recipientKeyResp with
    | .error _ => (.error .failedToGetRecipientKey, [.keyStoreAccess, .keyFetch])
    | .ok recipientKey =>
      match decodePublicKey recipientKey.publicKey with
      | none => (.error .invalidRecipientKey, [.keyStoreAccess, .keyFetch])
      | some recipientPubKey =>
        let _encrypted :=
          encryptMessage (utf8Bytes trimmed) env.nonce keys.1 recipientPubKey
        match env.sendResp with
        | .error _ =>
            (.error .sendFailed, [.keyStoreAccess, .keyFetch, .encryptOp, .sendCall])
        | .ok dm =>
            (.ok dm,
             [.keyStoreAccess, .keyFetch, .encryptOp, .sendCall, .registerCall])

/-- C7: the own-key registration is best-effort and happens last: the
whole result of `dmSend` (created message, error exit, and the event
trace) is identical whatever `RegisterDMKey` returns; on a successful
send the registration call is the last event, strictly after the send
call; and a failed recipient-key fetch aborts the command before any
send call happens. -/
theorem dmSend_registration_soft_fetch_fatal
    (content : List Char) (env : DMClientEnv)
    (r1 r2 : Except String DMKey) (e : String) :
    dmSend content { env with registerResp := r1 } =
      dmSend content { env with registerResp := r2 }
  ∧ (∀ dm, (dmSend content env).1 = .ok dm →
      (dmSend content env).2 =
        [.keyStoreAccess, .keyFetch, .encryptOp, .sendCall, .registerCall])
  ∧ (env.recipientKeyResp = .error e → goTrimSpace content ≠ [] →
      dmSend content env =
        (.error .failedToGetRecipientKey, [.keyStoreAccess, .keyFetch])
      ∧ DMEvent.sendCall ∉ (dmSend content env).2) := by
  refine ⟨rfl, ?_, ?_⟩
  · intro dm hdm
    by_cases ht : goTrimSpace content = []
    · simp [dmSend, ht] at hdm
    · rcases hr : env.recipientKeyResp with err | k
      · simp [dmSend, ht, hr] at hdm
      · rcases hd : decodePublicKey k.publicKey with _ | pk
        · simp [dmSend, ht, hr, hd] at hdm
        · rcases hs : env.sendResp with serr | dm'
          · simp [dmSend, ht, hr, hd, hs] at hdm
          · simp [dmSend, ht, hr, hd, hs]
  · intro hr ht
    have hres : dmSend content env =
        (.error .failedToGetRecipientKey, [.keyStoreAccess, .keyFetch]) := by
      simp [dmSend, ht, hr]
    refine ⟨hres, ?_⟩
    rw [hres]
    decide

/-- Witness for C7: with a fixed environment whose send succeeds, the
result is the same whether registration fails or succeeds; and with a
failing recipient-key fetch the command aborts with no send call. -/
theorem dmSend_registration_soft_fetch_fatal_witness :
    (dmSend ['h', 'i']
        { keyFile := DMKeyFile.absent,
          freshPrivate := List.replicate 32 3,
          freshPublic := List.replicate 32 4,
          recipientKeyResp := .ok ⟨"bob", b64EncodeChars (List.replicate 32 9), 0⟩,
          nonce := List.replicate 24 1,
          sendResp := .ok ⟨"dm1", "alice", "bob", [], [], 0⟩,
          registerResp := .error "boom" } =
      dmSend ['h', 'i']
        { keyFile := DMKeyFile.absent,
          freshPrivate := List.replicate 32 3,
          freshPublic := List.replicate 32 4,
          recipientKeyResp := .ok ⟨"bob", b64EncodeChars (List.replicate 32 9), 0⟩,
          nonce := List.replicate 24 1,
          sendResp := .ok ⟨"dm1", "alice", "bob", [], [], 0⟩,
          registerResp := .ok ⟨"alice", [], 0⟩ })
  ∧ goTrimSpace ['h', 'i'] ≠ []
  ∧ dmSend ['h', 'i']
        { keyFile := DMKeyFile.absent,
          freshPrivate := List.replicate 32 3,
          freshPublic := List.replicate 32 4,
          recipientKeyResp := .error "down",
          nonce := List.replicate 24 1,
          sendResp := .ok ⟨"dm1", "alice", "bob", [], [], 0⟩,
          registerResp := .error "boom" } =
      (.error .failedToGetRecipientKey, [.keyStoreAccess, .keyFetch]) :=
  ⟨(dmSend_registration_soft_fetch_fatal ['h', 'i']
      { keyFile := DMKeyFile.absent,
        freshPrivate := List.replicate 32 3,
        freshPublic := List.replicate 32 4,
        recipientKeyResp := .ok ⟨"bob", b64EncodeChars (List.replicate 32 9), 0⟩,
        nonce := List.replicate 24 1,
        sendResp := .ok ⟨"dm1", "alice", "bob", [], [], 0⟩,
        registerResp := .error "boom" }
      (.error "boom") (.ok ⟨"alice", [], 0⟩) "x").1,
   by decide,
   ((dmSend_registration_soft_fetch_fatal ['h', 'i']
      { keyFile := DMKeyFile.absent,
        freshPrivate := List.replicate 32 3,
        freshPublic := List.replicate 32 4,
        recipientKeyResp := .error "down",
        nonce := List.replicate 24 1,
        sendResp := .ok ⟨"dm1", "alice", "bob", [], [], 0⟩,
        registerResp := .error "boom" }
      (.error "boom") (.ok ⟨"alice", [], 0⟩) "down").2.2 rfl (by decide)).1⟩

/-- C10: a message whose content trims to the empty string is rejected
with the `content cannot be empty` exit before the key store is read
and before any key fetch, encryption, or network call: the event trace
is empty. -/
theorem dmSend_rejects_blank_content (content : List Char) (env : DMClientEnv)
    (h : goTrimSpace content = []) :
    dmSend content env = (.error .emptyContent, []) := by
  simp [dmSend, h]

/-- Witness for C10 on whitespace-only content. -/
theorem dmSend_rejects_blank_content_witness :
    goTrimSpace [' ', '\t', '\n'] = [] ∧
    dmSend [' ', '\t', '\n']
        { keyFile := DMKeyFile.absent,
          freshPrivate := List.replicate 32 3,
          freshPublic := List.replicate 32 4,
          recipientKeyResp := .error "unreachable",
          nonce := List.replicate 24 1,
          sendResp := .error "unreachable",
          registerResp := .error "unreachable" } =
      (.error .emptyContent, []) :=
  ⟨by decide,
    dmSend_rejects_blank_content [' ', '\t', '\n']
      { keyFile := DMKeyFile.absent,
        freshPrivate := List.replicate 32 3,
        freshPublic := List.replicate 32 4,
        recipientKeyResp := .error "unreachable",
        nonce := List.replicate 24 1,
        sendResp := .error "unreachable",
        registerResp := .error "unreachable" }
      (by decide)⟩

end MeshDM
